import Mathlib

/-!
Verification of the tiler proxy-balancer against its specification.

The definitions below are a shallow embedding of the Rust sources under
server/rust/proxy-balancer/src: the worker-pool round robin
(tasks/workers.rs), the job dispatch classification (tasks/job.rs), the
durable job queue (db/job/postgres.rs), the admission semaphore service
(tasks/semaphore.rs), the tile endpoint and disk cache (handles/endpoints/tile.rs,
utils.rs), the datasource write fan-out (handles/endpoints/datasource.rs) and
the cache-DB handle registry (tasks/sqlite_clients.rs).
Machine integers are modelled as Nat with explicit reductions modulo 2^w at the
points where the Rust code can wrap.
-/

namespace Tiler

/-!
Worker pool round robin.
Source: tasks/workers.rs, workers_maintenance, the GetWorkerData arm.
The task state is the u16 counter index_port (initially 0) and the port list.
-/

/-- One GetWorkerData request against a pool of n ports, mirroring the
GetWorkerData arm of workers_maintenance in tasks/workers.rs.  The state s is
the u16 counter index_port.  When the pool is empty None is sent.  Otherwise,
if index_port is greater than (count_ports - 1) cast to u16, the counter resets
to 1 and index 0 is returned; otherwise the counter is incremented (u16
arithmetic, hence the reductions modulo 65536) and the previous counter value is
returned as the index.  The returned port is ports[index]. -/
def getWorkerData (n s : Nat) : Option Nat × Nat :=
  if n = 0 then
    (none, s)
  else if s > (n - 1) % 65536 then
    (some 0, 1)
  else
    (some (((s + 1) % 65536 + 65535) % 65536), (s + 1) % 65536)

/-- Run k successive GetWorkerData requests from counter state s, collecting
the answers in order. -/
def rrRun (n s : Nat) : Nat → List (Option Nat) × Nat
  | 0 => ([], s)
  | k + 1 =>
    let r := getWorkerData n s
    let rest := rrRun n r.2 k
    (r.1 :: rest.1, rest.2)

theorem getWorkerData_char (n : Nat) (h1 : 0 < n) (h2 : n ≤ 65535) (s : Nat)
    (hs : s ≤ n) : getWorkerData n s = (some (s % n), s % n + 1) := by
  have hn : n ≠ 0 := Nat.pos_iff_ne_zero.mp h1
  have hsub : (n - 1) % 65536 = n - 1 := Nat.mod_eq_of_lt (by omega)
  rcases Nat.lt_or_ge s n with hlt | hge
  · have hns : ¬ s > (n - 1) % 65536 := by omega
    have hmod : s % n = s := Nat.mod_eq_of_lt hlt
    have h65 : (s + 1) % 65536 = s + 1 := Nat.mod_eq_of_lt (by omega)
    have h65b : (s + 1 + 65535) % 65536 = s := by
      have : s + 1 + 65535 = s + 65536 := by omega
      rw [this, Nat.add_mod_right, Nat.mod_eq_of_lt (by omega)]
    simp only [getWorkerData, if_neg hn, hns, if_false, h65, h65b, hmod]
  · have hseq : s = n := by omega
    subst hseq
    have hgt : s > (s - 1) % 65536 := by omega
    simp only [getWorkerData, if_neg hn, if_pos hgt, Nat.mod_self]

theorem rrRun_trace (n : Nat) (h1 : 0 < n) (h2 : n ≤ 65535) :
    ∀ (k s : Nat), s ≤ n →
      (rrRun n s k).1 = (List.range k).map (fun i => some ((s + i) % n)) := by
  intro k
  induction k with
  | zero => intro s _; simp [rrRun]
  | succ k ih =>
    intro s hs
    have hstep := getWorkerData_char n h1 h2 s hs
    have hs2 : s % n + 1 ≤ n := Nat.succ_le_of_lt (Nat.mod_lt _ h1)
    have hfun : (fun i => some ((s % n + 1 + i) % n))
        = fun i => some ((s + Nat.succ i) % n) := by
      funext i
      have e1 : (s % n + 1 + i) % n = (s % n + (1 + i)) % n := by
        rw [Nat.add_assoc]
      have e2 : (s % n + (1 + i)) % n = (s + (1 + i)) % n := Nat.mod_add_mod s n (1 + i)
      have e3 : s + (1 + i) = s + Nat.succ i := by omega
      rw [e1, e2, e3]
    simp only [rrRun, hstep, ih (s % n + 1) hs2, List.range_succ_eq_map,
      List.map_cons, List.map_map, Nat.add_zero, Function.comp_def]
    rw [hfun]

theorem succ_mod_div (n k : Nat) (h : 0 < n) :
    (k % n = n - 1 → (k + 1) % n = 0 ∧ (k + 1) / n = k / n + 1)
    ∧ (k % n < n - 1 → (k + 1) % n = k % n + 1 ∧ (k + 1) / n = k / n) := by
  have hk : n * (k / n) + k % n = k := Nat.div_add_mod k n
  constructor
  · intro hr
    have h1 : k + 1 = n * (k / n + 1) := by rw [Nat.mul_succ]; omega
    constructor
    · rw [h1, Nat.mul_mod_right]
    · rw [h1, Nat.mul_div_cancel_left _ h]
  · intro hr
    have h1 : k + 1 = n * (k / n) + (k % n + 1) := by omega
    constructor
    · rw [h1, Nat.mul_add_mod, Nat.mod_eq_of_lt (show k % n + 1 < n by omega)]
    · rw [h1, Nat.mul_add_div h, Nat.div_eq_of_lt (show k % n + 1 < n by omega)]
      omega

theorem count_range_mod (n : Nat) (h1 : 0 < n) :
    ∀ (k j : Nat), j < n →
      ((List.range k).map (fun i => i % n)).count j
        = k / n + if j < k % n then 1 else 0 := by
  intro k
  induction k with
  | zero => intro j hj; simp [Nat.zero_div, Nat.zero_mod]
  | succ k ih =>
    intro j hj
    have hmd := succ_mod_div n k h1
    rw [List.range_succ, List.map_append, List.count_append]
    rw [ih j hj]
    simp only [List.map_cons, List.map_nil, List.count_cons, List.count_nil]
    have hklt : k % n < n := Nat.mod_lt _ h1
    rcases Nat.lt_or_ge (k % n) (n - 1) with hcase | hcase
    · obtain ⟨hm, hd⟩ := hmd.2 hcase
      rw [hm, hd]
      by_cases hje : k % n = j
      · subst hje
        simp [Nat.lt_irrefl, Nat.lt_succ_self]
      · have : (k % n == j) = false := by simp [hje]
        rw [this]
        by_cases hjlt : j < k % n
        · have : j < k % n + 1 := by omega
          simp [hjlt, this]
        · have : ¬ j < k % n + 1 := by omega
          simp [hjlt, this]
    · have hreq : k % n = n - 1 := by omega
      obtain ⟨hm, hd⟩ := hmd.1 hreq
      rw [hm, hd]
      by_cases hje : k % n = j
      · have hjlt : ¬ j < k % n := by omega
        have : (k % n == j) = true := by simp [hje]
        simp [hjlt, this]
      · have hjlt : j < k % n := by omega
        have : (k % n == j) = false := by simp [hje]
        simp [hjlt, this]

theorem count_map_some (l : List Nat) (j : Nat) :
    (l.map some).count (some j) = l.count j := by
  induction l with
  | nil => rfl
  | cons a l ih =>
    by_cases h : a = j
    · subst h
      simp [List.count_cons, ih]
    · simp [List.count_cons, ih, h]

theorem ceil_div_char (n k : Nat) (h1 : 0 < n) (hr : 0 < k % n) :
    (k + n - 1) / n = k / n + 1 := by
  have hk : n * (k / n) + k % n = k := Nat.div_add_mod k n
  have hklt : k % n < n := Nat.mod_lt _ h1
  have h2 : k + n - 1 = n * (k / n + 1) + (k % n - 1) := by
    have hms : n * (k / n + 1) = n * (k / n) + n := Nat.mul_succ n (k / n)
    omega
  rw [h2, Nat.mul_add_div h1, Nat.div_eq_of_lt (show k % n - 1 < n by omega)]

/-- C1: for a fixed non-empty pool of n worker ports (n at most 65535, the u16
counter range), the sequence of indices returned by successive GetWorkerData
calls from the initial state is 0, 1, ..., advancing by one modulo n on every
call (a consistent cyclic order); consequently over k calls each index j < n is
returned either floor(k/n) or ceil(k/n) times; a non-empty pool never answers
None, and the empty pool always answers None. -/
theorem getWorkerData_round_robin (n k : Nat) (h1 : 0 < n) (h2 : n ≤ 65535) :
    (rrRun n 0 k).1 = (List.range k).map (fun i => some (i % n))
    ∧ (∀ j, j < n →
        ((rrRun n 0 k).1.count (some j) = k / n
          ∨ (rrRun n 0 k).1.count (some j) = (k + n - 1) / n))
    ∧ (∀ s, (getWorkerData n s).1 ≠ none)
    ∧ (∀ s, (getWorkerData 0 s).1 = none) := by
  have htrace : (rrRun n 0 k).1 = (List.range k).map (fun i => some (i % n)) := by
    have := rrRun_trace n h1 h2 k 0 (Nat.zero_le n)
    simpa using this
  refine ⟨htrace, ?_, ?_, ?_⟩
  · intro j hj
    have hmapmap : (List.range k).map (fun i => some (i % n))
        = ((List.range k).map (fun i => i % n)).map some := by
      rw [List.map_map]; rfl
    have hcount : ((List.range k).map (fun i => some (i % n))).count (some j)
        = ((List.range k).map (fun i => i % n)).count j := by
      rw [hmapmap]
      exact count_map_some _ j
    rw [htrace, hcount, count_range_mod n h1 k j hj]
    by_cases hjlt : j < k % n
    · right
      rw [ceil_div_char n k h1 (by omega)]
      simp [hjlt]
    · left
      simp [hjlt]
  · intro s
    simp only [getWorkerData, if_neg (Nat.pos_iff_ne_zero.mp h1)]
    split <;> simp
  · intro s
    simp [getWorkerData]

/-- Witness for C1 at the concrete pool size 3 with 7 calls: the visited index
sequence is 0,1,2,0,1,2,0. -/
theorem getWorkerData_round_robin_witness :
    (0 < 3 ∧ 3 ≤ 65535)
    ∧ (rrRun 3 0 7).1 = (List.range 7).map (fun i => some (i % 3)) :=
  ⟨⟨by decide, by decide⟩, (getWorkerData_round_robin 3 7 (by decide) (by decide)).1⟩

/-!
Job dispatch result classification.
Source: tasks/job.rs, job_processing_result and the error arms of job_pyramid.
-/

/-- Outcome applied to a job after a dispatch attempt: fail_job (increment
failed_attempts and return the job to Queued) or delete_job. -/
inductive JobAction
  | fail
  | delete
deriving DecidableEq

/-- Mirror of the code computed in job_processing_result in tasks/job.rs:
round(status as f32 / 100.0) cast back to u16.  For every representable HTTP
status 0 <= status <= 999 the f32 division is exact enough that the rounded
value equals round-half-away-from-zero of the rational status/100, which on
naturals is (status + 50) / 100: the halfway points (status = 50 mod 100) give
exactly representable f32 values k + 0.5, which f32 round moves away from zero,
and every other status is at least 0.01 away from a halfway point while the
correctly rounded f32 quotient is within 2^-20 of the rational value. -/
def job_status_class (status : Nat) : Nat :=
  (status + 50) / 100

/-- The classification branch of job_processing_result: fail_job when the
rounded code is 4, 5 or 6, delete_job otherwise. -/
def job_processing_result (status : Nat) : JobAction :=
  if job_status_class status = 4 ∨ job_status_class status = 5 ∨ job_status_class status = 6 then
    JobAction.fail
  else
    JobAction.delete

/-- Dispatch outcome including the transport-error arms of job_pyramid in
tasks/job.rs: none models a transport error (the request future returned Err),
which calls fail_job; a received response is classified by
job_processing_result. -/
def job_dispatch_action : Option Nat → JobAction
  | none => JobAction.fail
  | some status => job_processing_result status

/-- First digit of a three-digit HTTP status code, as used by the claim. -/
def firstDigit (status : Nat) : Nat := status / 100

/-- C3 counterexample: the response status 650 has first digit 6, so the claim
requires fail_job, but round(650/100) = 7 and the code deletes the job.  (Also,
statuses 350..399 have first digit 3 yet are failed.) -/
theorem job_dispatch_first_digit_counterexample :
    firstDigit 650 = 6 ∧ job_dispatch_action (some 650) = JobAction.delete := by
  constructor <;> rfl

/-- C3 amended: a pyramid-job HTTP response is failed exactly when
round(status/100) is 4, 5 or 6, i.e. exactly when 350 <= status <= 649 (not
exactly when the first digit is 4, 5 or 6: statuses 350..399 are also failed
and statuses 650..699 are deleted); every other received status deletes the
job, and a transport error fails the job. -/
theorem job_dispatch_action_amended (status : Nat) (h : status ≤ 999) :
    (job_dispatch_action (some status) = JobAction.fail
      ↔ 350 ≤ status ∧ status ≤ 649)
    ∧ job_dispatch_action none = JobAction.fail := by
  refine ⟨?_, rfl⟩
  simp only [job_dispatch_action, job_processing_result, job_status_class]
  by_cases hc : (status + 50) / 100 = 4 ∨ (status + 50) / 100 = 5 ∨ (status + 50) / 100 = 6
  · rw [if_pos hc]
    simp only [true_iff]
    omega
  · rw [if_neg hc]
    constructor
    · intro hcontra
      exact absurd hcontra (by decide)
    · intro hrange
      exfalso
      omega

/-- Witness for C3 amended at status 400 (failed) and status 200 would be
deleted; the hypothesis status <= 999 is discharged at 400. -/
theorem job_dispatch_action_amended_witness :
    (400 ≤ 999)
    ∧ (job_dispatch_action (some 400) = JobAction.fail ↔ 350 ≤ 400 ∧ 400 ≤ 649)
    ∧ job_dispatch_action none = JobAction.fail :=
  ⟨by decide, (job_dispatch_action_amended 400 (by decide)).1,
    (job_dispatch_action_amended 400 (by decide)).2⟩

/-!
Durable job queue.
Source: db/job/postgres.rs (PostgresQueue::pull, fail_job, delete_job) and the
SQL it executes against the queue table; MAX_FAILED_ATTEMPTS = 3.
-/

/-- Job status, stored as an integer in postgres (repr i32 in the source). -/
inductive JobStatus
  | Queued
  | Running
  | Failed
deriving DecidableEq

/-- One row of the queue table. -/
structure QueueRow where
  job_id : Nat
  created_at : Int
  updated_at : Int
  scheduled_for : Int
  failed_attempts : Nat
  status : JobStatus
deriving DecidableEq

/-- The WHERE clause of the pull query: status = Queued AND scheduled_for <= now
AND failed_attempts < MAX_FAILED_ATTEMPTS (= 3). -/
def eligible (now : Int) (r : QueueRow) : Bool :=
  r.status = JobStatus.Queued ∧ r.scheduled_for ≤ now ∧ r.failed_attempts < 3

/-- The ORDER BY scheduled_for relation of the pull query. -/
def schedLE (a b : QueueRow) : Prop :=
  a.scheduled_for ≤ b.scheduled_for

instance : DecidableRel schedLE := fun a b =>
  inferInstanceAs (Decidable (a.scheduled_for ≤ b.scheduled_for))

instance : IsTotal QueueRow schedLE :=
  ⟨fun a b => Int.le_total a.scheduled_for b.scheduled_for⟩

instance : IsTrans QueueRow schedLE :=
  ⟨fun _ _ _ hab hbc => le_trans hab hbc⟩

/-- PostgresQueue::pull: within one transaction, UPDATE to Running (stamping
updated_at = now) the rows selected by the subquery (status = Queued AND
scheduled_for <= now AND failed_attempts < 3, ORDER BY scheduled_for,
LIMIT n) and return them.  The result is (returned rows, new table). -/
def pull (now : Int) (n : Nat) (q : List QueueRow) : List QueueRow × List QueueRow :=
  let sel : List QueueRow := ((q.filter (eligible now)).insertionSort schedLE).take n
  let selIds : List Nat := sel.map (fun r => r.job_id)
  (sel.map (fun r => { r with status := JobStatus.Running, updated_at := now }),
   q.map (fun r =>
     if r.job_id ∈ selIds then
       { r with status := JobStatus.Running, updated_at := now }
     else r))

/-- PostgresQueue::fail_job: UPDATE queue SET status = Queued, updated_at = now,
failed_attempts = failed_attempts + 1 WHERE job_id = id. -/
def fail_job (now : Int) (id : Nat) (q : List QueueRow) : List QueueRow :=
  q.map (fun r =>
    if r.job_id = id then
      { r with status := JobStatus.Queued, updated_at := now,
               failed_attempts := r.failed_attempts + 1 }
    else r)

/-- PostgresQueue::delete_job: DELETE FROM queue WHERE job_id = id. -/
def delete_job (id : Nat) (q : List QueueRow) : List QueueRow :=
  q.filter (fun r => r.job_id ≠ id)

theorem mem_pull_sel (now : Int) (n : Nat) (q : List QueueRow) (r : QueueRow)
    (hr : r ∈ (pull now n q).1) :
    ∃ r0, r0 ∈ q ∧ eligible now r0 = true
      ∧ r = { r0 with status := JobStatus.Running, updated_at := now }
      ∧ r0.job_id ∈ (((q.filter (eligible now)).insertionSort schedLE).take n).map
          (fun r => r.job_id) := by
  simp only [pull, List.mem_map] at hr
  obtain ⟨r0, hr0, heq⟩ := hr
  have hmem : r0 ∈ q ∧ eligible now r0 = true := by
    have h1 : r0 ∈ (q.filter (eligible now)).insertionSort schedLE :=
      (List.take_sublist n _).subset hr0
    have h2 : r0 ∈ q.filter (eligible now) :=
      (List.perm_insertionSort schedLE _).subset h1
    exact ⟨(List.mem_filter.mp h2).1, (List.mem_filter.mp h2).2⟩
  exact ⟨r0, hmem.1, hmem.2, heq.symm, List.mem_map.mpr ⟨r0, hr0, rfl⟩⟩

theorem pull_marks_running (now : Int) (n : Nat) (q : List QueueRow) :
    ∀ r ∈ (pull now n q).1, ∃ r2 ∈ (pull now n q).2,
      r2.job_id = r.job_id ∧ r2.status = JobStatus.Running := by
  intro r hr
  obtain ⟨r0, hq, _helig, heq, hid⟩ := mem_pull_sel now n q r hr
  refine ⟨{ r0 with status := JobStatus.Running, updated_at := now }, ?_, ?_, rfl⟩
  · simp only [pull]
    exact List.mem_map.mpr ⟨r0, hq, by rw [if_pos hid]⟩
  · rw [heq]

/-- C2: pull(n) returns at most n jobs; every returned job came from a row of
the table satisfying status = Queued, scheduled_for <= now and
failed_attempts < 3 (so a job with failed_attempts = 3 is never pulled), is
returned ordered by scheduled_for, and is marked Running in the new table;
delete_job removes every row with the dispatched job's id and fail_job returns
a failed job's row to Queued with failed_attempts incremented. -/
theorem postgres_pull_correct (now : Int) (n : Nat) (q : List QueueRow) :
    ((pull now n q).1.length ≤ n)
    ∧ (∀ r ∈ (pull now n q).1, r.status = JobStatus.Running ∧ r.updated_at = now
        ∧ r.failed_attempts < 3 ∧ r.scheduled_for ≤ now
        ∧ ∃ r0 ∈ q, r0.job_id = r.job_id ∧ r0.status = JobStatus.Queued
            ∧ r0.scheduled_for = r.scheduled_for
            ∧ r0.failed_attempts = r.failed_attempts)
    ∧ List.Sorted schedLE (pull now n q).1
    ∧ (∀ r ∈ (pull now n q).1, ∃ r2 ∈ (pull now n q).2,
        r2.job_id = r.job_id ∧ r2.status = JobStatus.Running)
    ∧ (∀ id, ∀ r ∈ delete_job id q, r.job_id ≠ id)
    ∧ (∀ id r, r ∈ q → r.job_id = id →
        { r with status := JobStatus.Queued, updated_at := now,
                 failed_attempts := r.failed_attempts + 1 } ∈ fail_job now id q) := by
  refine ⟨?_, ?_, ?_, pull_marks_running now n q, ?_, ?_⟩
  · simpa [pull] using List.length_take_le n _
  · intro r hr
    obtain ⟨r0, hq, helig, heq, _⟩ := mem_pull_sel now n q r hr
    have he : r0.status = JobStatus.Queued ∧ r0.scheduled_for ≤ now
        ∧ r0.failed_attempts < 3 := by
      simpa [eligible] using helig
    subst heq
    exact ⟨rfl, rfl, he.2.2, he.2.1, r0, hq, rfl, he.1, rfl, rfl⟩
  · have hsorted : List.Sorted schedLE
        (((q.filter (eligible now)).insertionSort schedLE).take n) :=
      (List.sorted_insertionSort schedLE _).sublist (List.take_sublist n _)
    simp only [pull]
    exact List.Pairwise.map _ (fun a b hab => hab) hsorted
  · intro id r hr
    have := List.mem_filter.mp hr
    simpa using this.2
  · intro id r hq hid
    simp only [fail_job, List.mem_map]
    exact ⟨r, hq, by rw [if_pos hid]⟩

/-!
Job runner loop.
Source: tasks/job.rs, job_worker: each iteration pulls up to JOB_CONCURRENCY
jobs and acts (on jobs[0]) only when the batch is full.  JOB_CONCURRENCY is
defined in defaults.rs, which is not part of the published sources; it is kept
as a parameter jc here.
-/

/-- Database actions an iteration of job_worker may perform after the pull. -/
inductive RunnerEffect
  | dispatched (job_id : Nat)
  | deleted (job_id : Nat)
  | failed (job_id : Nat)
deriving DecidableEq

/-- One iteration of the job_worker loop in tasks/job.rs: pull up to jc jobs;
only when jobs.len() == jc dispatch the first job (job_pyramid) and apply
job_processing_result to the HTTP outcome (none = transport error); otherwise
do nothing further.  Returns the resulting table and the performed actions. -/
def job_worker_iteration (jc : Nat) (now : Int) (q : List QueueRow)
    (outcome : Option Nat) : List QueueRow × List RunnerEffect :=
  let pulled := pull now jc q
  if pulled.1.length = jc then
    match pulled.1 with
    | [] => (pulled.2, [])
    | j :: _ =>
      match job_dispatch_action outcome with
      | JobAction.fail =>
          (fail_job now j.job_id pulled.2,
           [RunnerEffect.dispatched j.job_id, RunnerEffect.failed j.job_id])
      | JobAction.delete =>
          (delete_job j.job_id pulled.2,
           [RunnerEffect.dispatched j.job_id, RunnerEffect.deleted j.job_id])
  else
    (pulled.2, [])

/-- C10: when pull returns a non-empty batch smaller than JOB_CONCURRENCY, the
iteration leaves the table exactly as pull left it and performs no dispatch,
delete_job or fail_job; the pulled jobs are already Running in that table; and
since pull only selects Queued rows, a job id whose rows are all non-Queued is
never returned by any pull, so such a job is never pulled, retried or
completed. -/
theorem job_worker_short_batch (jc : Nat) (now : Int) (q : List QueueRow)
    (outcome : Option Nat)
    (hne : 0 < (pull now jc q).1.length) (hlt : (pull now jc q).1.length < jc) :
    job_worker_iteration jc now q outcome = ((pull now jc q).2, [])
    ∧ (∀ r ∈ (pull now jc q).1, ∃ r2 ∈ (pull now jc q).2,
        r2.job_id = r.job_id ∧ r2.status = JobStatus.Running)
    ∧ (∀ (q2 : List QueueRow) (now2 : Int) (n2 i : Nat),
        (∀ r0 ∈ q2, r0.job_id = i → r0.status ≠ JobStatus.Queued) →
        ∀ r ∈ (pull now2 n2 q2).1, r.job_id ≠ i) := by
  refine ⟨?_, pull_marks_running now jc q, ?_⟩
  · have hne2 : (pull now jc q).1.length ≠ jc := by omega
    simp only [job_worker_iteration, if_neg hne2]
  · intro q2 now2 n2 i hall r hr hid
    obtain ⟨r0, hq, helig, heq, _⟩ := mem_pull_sel now2 n2 q2 r hr
    have he : r0.status = JobStatus.Queued := by
      have := helig
      simp [eligible] at this
      exact this.1
    have : r0.job_id = i := by rw [heq] at hid; exact hid
    exact hall r0 hq this he

/-- Witness for C10: with JOB_CONCURRENCY = 2 and a single eligible queued row,
pull returns one job (a non-empty short batch) and the iteration does nothing
beyond the pull. -/
theorem job_worker_short_batch_witness :
    (0 < (pull 0 2 [⟨1, 0, 0, 0, 0, JobStatus.Queued⟩]).1.length
      ∧ (pull 0 2 [⟨1, 0, 0, 0, 0, JobStatus.Queued⟩]).1.length < 2)
    ∧ job_worker_iteration 2 0 [⟨1, 0, 0, 0, 0, JobStatus.Queued⟩] (some 200)
        = ((pull 0 2 [⟨1, 0, 0, 0, 0, JobStatus.Queued⟩]).2, []) :=
  ⟨⟨by decide, by decide⟩,
    (job_worker_short_batch 2 0 [⟨1, 0, 0, 0, 0, JobStatus.Queued⟩] (some 200)
      (by decide) (by decide)).1⟩

/-!
Admission semaphore service.
Source: tasks/semaphore.rs, semaphore_maintenance, which spawns a waiter loop
(jh_permits_maintenance) owning per-port FIFO deques of reply senders, and a
release-watch loop (jh_wait_permits) applying Increase/Decrease permit changes
across all port semaphores while tracking number_concurrent_requests (usize,
hence the reductions modulo 2^64).  The embedding is a state machine whose
events are the atomically processed steps of the two loops plus dropPermit
steps for the moments at which a request handler drops a held permit back to
its semaphore.  ReleasedPermit messages are modelled as adversarially scheduled
events, a superset of the schedules the watch loop actually produces.  cap is
the specification's notion of a port's current capacity (held + available
permits, i.e. the initial count plus adds minus forgets); tokio semaphores
store only the available count, so cap is carried alongside and tied to it by
the invariant avail + inflight = cap.  arrived, popped and served are ghost
histories of each port's deque: ids enqueued, ids popped, and ids actually
delivered a permit on pop (a popped sender whose semaphore has no available
permit is dropped without a permit, which the source comments attribute to
cancelled requests). -/

/-- Wrapping modulus of usize on a 64-bit target. -/
def usizeMod : Nat := 18446744073709551616

/-- State of the semaphore service: the known port set of the semaphores map,
per-port available permits, in-flight (held) permits, ghost capacity, waiter
deque, ghost histories, and the watch loop's number_concurrent_requests. -/
structure SemState where
  ports : List Nat
  avail : Nat → Nat
  inflight : Nat → Nat
  cap : Nat → Nat
  queue : Nat → List Nat
  arrived : Nat → List Nat
  popped : Nat → List Nat
  served : Nat → List Nat
  ncr : Nat

/-- Pointwise update of a function at one port. -/
def updf {α : Type} (f : Nat → α) (p : Nat) (v : α) : Nat → α :=
  fun q => if q = p then v else f q

theorem updf_same {α : Type} (f : Nat → α) (p : Nat) (v : α) : updf f p v p = v := by
  simp [updf]

theorem updf_other {α : Type} (f : Nat → α) (p : Nat) (v : α) (q : Nat)
    (h : ¬ q = p) : updf f p v q = f q := by
  simp [updf, h]

/-- Events of the semaphore service: a GetPermit message carrying a waiter id,
a ReleasedPermit message, a handler dropping a held permit for a port, and a
watch-loop tick applying a pending Increase or Decrease message. -/
inductive SemEvent
  | getPermit (port wid : Nat)
  | releasedPermit (port : Nat)
  | dropPermit (port : Nat)
  | tickIncrease (n : Nat)
  | tickDecrease (n : Nat)

/-- One step of the semaphore service; returns the new state and the list of
(port, waiter id) permit deliveries performed by the step.  GetPermit: an
existing semaphore with an available permit delivers immediately, a drained
one enqueues the sender at the tail; a missing semaphore is created with
max_concurrent_tile_requests permits and one is delivered at once (with zero
permits the loop would block forever on acquire, modelled as a stuck no-op).
ReleasedPermit: pop the deque head; deliver only if the port's semaphore
exists and has an available permit, else the popped sender is lost.
tickIncrease n: add_permits(n) on every port semaphore and grow
number_concurrent_requests.  tickDecrease n: forget_permits(n) on every port
semaphore, removing min(n, available) permits from each, then subtract from
number_concurrent_requests the amount actually forgotten from the last
iterated port (wrapping usize subtraction). -/
def semStep (maxCR : Nat) (s : SemState) : SemEvent → SemState × List (Nat × Nat)
  | SemEvent.getPermit p w =>
    if p ∈ s.ports then
      if 0 < s.avail p then
        ({ s with avail := updf s.avail p (s.avail p - 1),
                  inflight := updf s.inflight p (s.inflight p + 1) }, [(p, w)])
      else
        ({ s with queue := updf s.queue p (s.queue p ++ [w]),
                  arrived := updf s.arrived p (s.arrived p ++ [w]) }, [])
    else
      if 0 < maxCR then
        ({ s with ports := s.ports ++ [p],
                  avail := updf s.avail p (maxCR - 1),
                  inflight := updf s.inflight p 1,
                  cap := updf s.cap p maxCR }, [(p, w)])
      else
        (s, [])
  | SemEvent.releasedPermit p =>
    match s.queue p with
    | [] => (s, [])
    | w :: rest =>
      if p ∈ s.ports ∧ 0 < s.avail p then
        ({ s with queue := updf s.queue p rest,
                  popped := updf s.popped p (s.popped p ++ [w]),
                  served := updf s.served p (s.served p ++ [w]),
                  avail := updf s.avail p (s.avail p - 1),
                  inflight := updf s.inflight p (s.inflight p + 1) }, [(p, w)])
      else
        ({ s with queue := updf s.queue p rest,
                  popped := updf s.popped p (s.popped p ++ [w]) }, [])
  | SemEvent.dropPermit p =>
    if p ∈ s.ports ∧ 0 < s.inflight p then
      ({ s with avail := updf s.avail p (s.avail p + 1),
                inflight := updf s.inflight p (s.inflight p - 1) }, [])
    else
      (s, [])
  | SemEvent.tickIncrease n =>
    ({ s with
        avail := fun q => if q ∈ s.ports then s.avail q + n else s.avail q,
        cap := fun q => if q ∈ s.ports then s.cap q + n else s.cap q,
        ncr := if s.ports = [] then s.ncr else (s.ncr + n) % usizeMod }, [])
  | SemEvent.tickDecrease n =>
    let actualLast : Nat :=
      match s.ports.getLast? with
      | none => 0
      | some p => min n (s.avail p)
    ({ s with
        avail := fun q => if q ∈ s.ports then s.avail q - min n (s.avail q) else s.avail q,
        cap := fun q => if q ∈ s.ports then s.cap q - min n (s.avail q) else s.cap q,
        ncr := if s.ports = [] then s.ncr
               else (s.ncr + (usizeMod - actualLast % usizeMod)) % usizeMod }, [])

/-- Run a sequence of semaphore events, collecting deliveries in order. -/
def semRun (maxCR : Nat) (s : SemState) : List SemEvent → SemState × List (Nat × Nat)
  | [] => (s, [])
  | e :: es =>
    let r := semStep maxCR s e
    let rest := semRun maxCR r.1 es
    (rest.1, r.2 ++ rest.2)

/-- The state of the semaphore service at startup: one semaphore per worker
port with max_concurrent_tile_requests permits, no waiters, and
number_concurrent_requests = max_concurrent_tile_requests. -/
def semInit (ports : List Nat) (maxCR : Nat) : SemState :=
  { ports := ports,
    avail := fun p => if p ∈ ports then maxCR else 0,
    inflight := fun _ => 0,
    cap := fun p => if p ∈ ports then maxCR else 0,
    queue := fun _ => [],
    arrived := fun _ => [],
    popped := fun _ => [],
    served := fun _ => [],
    ncr := maxCR }

/-- FIFO deque invariant: every port's enqueue history is its pop history
followed by the current deque contents. -/
def FifoInv (s : SemState) : Prop :=
  ∀ p, s.arrived p = s.popped p ++ s.queue p

/-- The ids delivered from a port's deque form a sublist (in order) of the ids
popped from it. -/
def ServedPrefix (s : SemState) : Prop :=
  ∀ p, List.Sublist (s.served p) (s.popped p)

theorem semStep_fifo (maxCR : Nat) (s : SemState) (e : SemEvent)
    (h : FifoInv s) : FifoInv (semStep maxCR s e).1 := by
  intro q
  cases e with
  | getPermit p w =>
    simp only [semStep]
    split
    · split
      · exact h q
      · by_cases hq : q = p
        · subst hq
          simp [updf, h q, List.append_assoc]
        · simp [updf, hq, h q]
    · split
      · exact h q
      · exact h q
  | releasedPermit p =>
    simp only [semStep]
    split
    · exact h q
    · next w rest hqp =>
      split
      · by_cases hq : q = p
        · subst hq
          simp [updf, h q, hqp, List.append_assoc]
        · simp [updf, hq, h q]
      · by_cases hq : q = p
        · subst hq
          simp [updf, h q, hqp, List.append_assoc]
        · simp [updf, hq, h q]
  | dropPermit p =>
    simp only [semStep]
    split
    · exact h q
    · exact h q
  | tickIncrease n =>
    exact h q
  | tickDecrease n =>
    exact h q

theorem semStep_served (maxCR : Nat) (s : SemState) (e : SemEvent)
    (h : ServedPrefix s) : ServedPrefix (semStep maxCR s e).1 := by
  intro q
  cases e with
  | getPermit p w =>
    simp only [semStep]
    split
    · split
      · exact h q
      · exact h q
    · split
      · exact h q
      · exact h q
  | releasedPermit p =>
    simp only [semStep]
    split
    · exact h q
    · next w rest hqp =>
      split
      · by_cases hq : q = p
        · subst hq
          simp only [updf_same]
          exact (h q).append (List.Sublist.refl [w])
        · simp only [updf_other _ _ _ _ hq]
          exact h q
      · by_cases hq : q = p
        · subst hq
          simp only [updf_same]
          exact (h q).trans (List.sublist_append_left _ [w])
        · simp only [updf_other _ _ _ _ hq]
          exact h q
  | dropPermit p =>
    simp only [semStep]
    split
    · exact h q
    · exact h q
  | tickIncrease n =>
    exact h q
  | tickDecrease n =>
    exact h q

theorem semRun_fifo (maxCR : Nat) (s : SemState) (es : List SemEvent)
    (h : FifoInv s) : FifoInv (semRun maxCR s es).1 := by
  induction es generalizing s with
  | nil => exact h
  | cons e es ih =>
    simp only [semRun]
    exact ih _ (semStep_fifo maxCR s e h)

theorem semRun_served (maxCR : Nat) (s : SemState) (es : List SemEvent)
    (h : ServedPrefix s) : ServedPrefix (semRun maxCR s es).1 := by
  induction es generalizing s with
  | nil => exact h
  | cons e es ih =>
    simp only [semRun]
    exact ih _ (semStep_served maxCR s e h)

/-- C4: waiters queued on one port's deque are served strictly FIFO.  After any
event sequence, each port's enqueue history equals pop history plus current
deque, deliveries from the deque form an in-order sublist of the pops, and on
any port where every popped sender was actually delivered a permit (served =
popped, which holds whenever permits are available as they return), the
delivered ids are exactly the enqueued ids in arrival order, followed by the
still-queued ids: arrivals A, B, C are delivered in exactly that order. -/
theorem semaphore_fifo_order (maxCR : Nat) (s0 : SemState) (es : List SemEvent)
    (h1 : FifoInv s0) (h2 : ServedPrefix s0) :
    FifoInv (semRun maxCR s0 es).1
    ∧ ServedPrefix (semRun maxCR s0 es).1
    ∧ (∀ p, (semRun maxCR s0 es).1.served p = (semRun maxCR s0 es).1.popped p →
        (semRun maxCR s0 es).1.arrived p
          = (semRun maxCR s0 es).1.served p ++ (semRun maxCR s0 es).1.queue p) := by
  refine ⟨semRun_fifo maxCR s0 es h1, semRun_served maxCR s0 es h2, ?_⟩
  intro p hsp
  rw [hsp]
  exact semRun_fifo maxCR s0 es h1 p

/-- Concrete C4 scenario: port 7 has a single permit which waiter 100 takes;
waiters 101, 102, 103 arrive while the port is fully booked; the permit is
dropped and re-granted three times. -/
def fifoScenario : List SemEvent :=
  [SemEvent.getPermit 7 100, SemEvent.getPermit 7 101, SemEvent.getPermit 7 102,
   SemEvent.getPermit 7 103, SemEvent.dropPermit 7, SemEvent.releasedPermit 7,
   SemEvent.dropPermit 7, SemEvent.releasedPermit 7, SemEvent.dropPermit 7,
   SemEvent.releasedPermit 7]

/-- Witness for C4: in the concrete scenario the queued waiters 101, 102, 103
are delivered permits in exactly arrival order. -/
theorem semaphore_fifo_order_witness :
    FifoInv (semInit [7] 1) ∧ ServedPrefix (semInit [7] 1)
    ∧ (semRun 1 (semInit [7] 1) fifoScenario).1.served 7 = [101, 102, 103]
    ∧ ((semRun 1 (semInit [7] 1) fifoScenario).1.served 7
          = (semRun 1 (semInit [7] 1) fifoScenario).1.popped 7 →
        (semRun 1 (semInit [7] 1) fifoScenario).1.arrived 7
          = (semRun 1 (semInit [7] 1) fifoScenario).1.served 7 ++
              (semRun 1 (semInit [7] 1) fifoScenario).1.queue 7) :=
  ⟨fun _ => rfl, fun _ => List.nil_sublist _, by decide,
    (semaphore_fifo_order 1 (semInit [7] 1) fifoScenario
      (fun _ => rfl) (fun _ => List.nil_sublist _)).2.2 7⟩

/-- Ghost-capacity invariant: for every known port, available plus in-flight
permits equal the port's capacity. -/
def CapInv (s : SemState) : Prop :=
  ∀ p ∈ s.ports, s.avail p + s.inflight p = s.cap p

theorem semStep_cap (maxCR : Nat) (s : SemState) (e : SemEvent)
    (h : CapInv s) : CapInv (semStep maxCR s e).1 := by
  cases e with
  | getPermit p w =>
    simp only [semStep]
    split
    · next hp =>
      split
      · next ha =>
        intro q hq
        by_cases hqp : q = p
        · subst hqp
          simp only [updf_same]
          have := h q hq
          omega
        · simp only [updf_other _ _ _ _ hqp]
          exact h q hq
      · intro q hq
        exact h q hq
    · next hp =>
      split
      · next hm =>
        intro q hq
        rcases List.mem_append.mp hq with hq1 | hq2
        · have hqp : ¬ q = p := fun hqp => hp (hqp ▸ hq1)
          simp only [updf_other _ _ _ _ hqp]
          exact h q hq1
        · have hqp : q = p := by simpa using hq2
          subst hqp
          simp only [updf_same]
          omega
      · intro q hq
        exact h q hq
  | releasedPermit p =>
    simp only [semStep]
    split
    · exact h
    · next w rest hqp =>
      split
      · next hcond =>
        intro q hq
        by_cases hqe : q = p
        · subst hqe
          simp only [updf_same]
          have := h q hq
          have := hcond.2
          omega
        · simp only [updf_other _ _ _ _ hqe]
          exact h q hq
      · intro q hq
        exact h q hq
  | dropPermit p =>
    simp only [semStep]
    split
    · next hcond =>
      intro q hq
      by_cases hqe : q = p
      · subst hqe
        simp only [updf_same]
        have := h q hq
        have := hcond.2
        omega
      · simp only [updf_other _ _ _ _ hqe]
        exact h q hq
    · exact h
  | tickIncrease n =>
    intro q hq
    simp only [semStep] at hq
    have hc := h q hq
    simp [semStep, hq]
    omega
  | tickDecrease n =>
    intro q hq
    simp only [semStep] at hq
    have hc := h q hq
    simp [semStep, hq]
    omega

theorem semRun_cap (maxCR : Nat) (s : SemState) (es : List SemEvent)
    (h : CapInv s) : CapInv (semRun maxCR s es).1 := by
  induction es generalizing s with
  | nil => exact h
  | cons e es ih =>
    simp only [semRun]
    exact ih _ (semStep_cap maxCR s e h)

/-- C5 amended: after any event sequence from a state satisfying the capacity
invariant, every port's in-flight permits never exceed its capacity; an applied
Increase n (AddPermits) raises every port's capacity by exactly n; an applied
Decrease n (ForgetPermits) lowers each port's capacity by at most n (by
exactly min(n, available), never more than is forgettable).  However (see the
counterexample) after a Decrease the tracked global number_concurrent_requests
is only adjusted by the amount forgotten from the last iterated port and need
not equal every port's capacity. -/
theorem semaphore_capacity_bounds (maxCR : Nat) (s : SemState)
    (es : List SemEvent) (h : CapInv s) :
    CapInv (semRun maxCR s es).1
    ∧ (∀ p ∈ (semRun maxCR s es).1.ports,
        (semRun maxCR s es).1.inflight p ≤ (semRun maxCR s es).1.cap p)
    ∧ (∀ n p, p ∈ s.ports →
        (semStep maxCR s (SemEvent.tickIncrease n)).1.cap p = s.cap p + n)
    ∧ (∀ n p, p ∈ s.ports →
        s.cap p - n ≤ (semStep maxCR s (SemEvent.tickDecrease n)).1.cap p
        ∧ (semStep maxCR s (SemEvent.tickDecrease n)).1.cap p ≤ s.cap p) := by
  refine ⟨semRun_cap maxCR s es h, ?_, ?_, ?_⟩
  · intro p hp
    have := semRun_cap maxCR s es h p hp
    omega
  · intro n p hp
    simp only [semStep]
    simp [hp]
  · intro n p hp
    have hc := h p hp
    simp only [semStep]
    simp [hp]
    omega

/-- Witness for C5: the initial two-port state satisfies the capacity
invariant, and an applied Increase raises port 1's capacity from 5 to 5 + n. -/
theorem semaphore_capacity_bounds_witness :
    CapInv (semInit [1, 2] 5)
    ∧ (∀ n p, p ∈ (semInit [1, 2] 5).ports →
        (semStep 5 (semInit [1, 2] 5) (SemEvent.tickIncrease n)).1.cap p
          = (semInit [1, 2] 5).cap p + n) :=
  ⟨by unfold CapInv; decide,
    (semaphore_capacity_bounds 5 (semInit [1, 2] 5) [] (by unfold CapInv; decide)).2.2.1⟩

/-- Concrete C5 scenario: from two ports with 5 permits each, three permits are
taken on port 1, then a Decrease 4 is applied. -/
def decreaseScenario : List SemEvent :=
  [SemEvent.getPermit 1 10, SemEvent.getPermit 1 11, SemEvent.getPermit 1 12,
   SemEvent.tickDecrease 4]

/-- C5 counterexample: initially number_concurrent_requests (5) equals every
port's capacity, but after the Decrease 4 port 1 (with only 2 available
permits) forgets 2 and ends with capacity 3, port 2 forgets 4 and ends with
capacity 1, and number_concurrent_requests becomes 1, so it no longer equals
each port semaphore's capacity after the resize. -/
theorem semaphore_ncr_counterexample :
    (∀ p ∈ (semInit [1, 2] 5).ports, (semInit [1, 2] 5).ncr = (semInit [1, 2] 5).cap p)
    ∧ ¬ (∀ p ∈ (semRun 5 (semInit [1, 2] 5) decreaseScenario).1.ports,
          (semRun 5 (semInit [1, 2] 5) decreaseScenario).1.ncr
            = (semRun 5 (semInit [1, 2] 5) decreaseScenario).1.cap p) := by
  constructor
  · decide
  · decide

/-!
Tile disk cache and tile endpoint.
Source: utils.rs (get_tile_from_disk, tile_response) and
handles/endpoints/tile.rs (tile_endpoint).
-/

/-- The gzip magic bytes 1f 8b 08 tested by tile_response. -/
def gzipMagic : List Nat := [31, 139, 8]

/-- tile.starts_with(b"\x1f\x8b\x08") from tile_response in utils.rs. -/
def startsWithGzip (tile : List Nat) : Bool :=
  gzipMagic.isPrefixOf tile

/-- Response produced by the tile path: HTTP status, the Content-type header
value (empty string when the header is absent), whether the
Content-Encoding gzip header is present, and the body bytes. -/
structure TileResp where
  status : Nat
  contentType : String
  gzipHeader : Bool
  body : List Nat
deriving DecidableEq

/-- utils.rs tile_response: a 200 response carrying the tile bytes, with
Content-Encoding gzip exactly when the content starts with the gzip magic. -/
def tile_response (tile : List Nat) (ct : String) : TileResp :=
  if startsWithGzip tile then
    { status := 200, contentType := ct, gzipHeader := true, body := tile }
  else
    { status := 200, contentType := ct, gzipHeader := false, body := tile }

/-- utils.rs get_tile_from_disk: file is the on-disk content, none when the
metadata call fails (file absent).  A file of positive length is read and
returned through tile_response; a zero-length file produces an empty 400
response; an absent file produces none and the endpoint falls through to the
cache DB. -/
def get_tile_from_disk (file : Option (List Nat)) (ct : String) : Option TileResp :=
  match file with
  | none => none
  | some tile =>
    if tile.length > 0 then
      some (tile_response tile ct)
    else
      some { status := 400, contentType := "", gzipHeader := false, body := [] }

/-- C7: a present non-empty on-disk tile is served with status 200 and its
exact bytes, carrying Content-Encoding gzip exactly when the content starts
with bytes 1f 8b 08; a present zero-length file is answered with 400. -/
theorem get_tile_from_disk_correct (t : List Nat) (ct : String) (hne : t ≠ []) :
    get_tile_from_disk (some t) ct
      = some { status := 200, contentType := ct, gzipHeader := startsWithGzip t,
               body := t }
    ∧ (startsWithGzip t = true ↔ List.IsPrefix gzipMagic t)
    ∧ get_tile_from_disk (some []) ct
      = some { status := 400, contentType := "", gzipHeader := false, body := [] } := by
  refine ⟨?_, ?_, rfl⟩
  · have hlen : t.length > 0 := List.length_pos.mpr hne
    simp only [get_tile_from_disk, if_pos hlen, tile_response]
    by_cases hg : startsWithGzip t = true
    · simp [hg]
    · simp only [Bool.not_eq_true] at hg
      simp [hg]
  · exact List.isPrefixOf_iff_prefix

/-- Witness for C7 with a gzip tile (1f 8b 08 2a) and implicitly the empty
file case from the third conjunct. -/
theorem get_tile_from_disk_correct_witness :
    ([31, 139, 8, 42] ≠ ([] : List Nat))
    ∧ get_tile_from_disk (some [31, 139, 8, 42]) "image/png"
      = some { status := 200, contentType := "image/png",
               gzipHeader := startsWithGzip [31, 139, 8, 42], body := [31, 139, 8, 42] }
    ∧ get_tile_from_disk (some []) "image/png"
      = some { status := 400, contentType := "", gzipHeader := false, body := [] } :=
  ⟨by decide, (get_tile_from_disk_correct [31, 139, 8, 42] "image/png" (by decide)).1,
    (get_tile_from_disk_correct [31, 139, 8, 42] "image/png" (by decide)).2.2⟩

/-- In-memory projection of a datasource, from tasks/datasources.rs. -/
structure DataSourceInfo where
  host : Option String
  port : Option Int
  use_cache_only : Option Bool
  compress_tiles : Option Bool
deriving DecidableEq

/-- Result of the cache-DB stage of tile_endpoint: hit is get_mbtile returning
a response; miss is a found mbtiles path whose lookup produced no response;
noPath is mbtiles_path_from_uri failing, carrying the response (if any)
produced by try_init_mbtiles. -/
inductive DbStage
  | hit (resp : TileResp)
  | miss
  | noPath (initResp : Option TileResp)
deriving DecidableEq

/-- Observable outcome of tile_endpoint: the response, whether a GetPermit
message was sent to the admission semaphore, and whether the request was
reverse-proxied to the worker. -/
structure TileOutcome where
  resp : TileResp
  sentGetPermit : Bool
  proxied : Bool
deriving DecidableEq

/-- handles/endpoints/tile.rs tile_endpoint, as a function of the results of
its external calls: URI parsing (parseOk covers the dataset-dir, file-path and
zxy parses, each answering 400 on failure), the zoom bound MAXZOOM (a constant
of defaults.rs, kept as the parameter maxzoom), the on-disk file, the cache-DB
stage, the datasource registry answer to GetDataSource, and the worker proxy
response (none for a transport error, answered 500).  On a disk and cache miss
with use_cache_only true (absent datasource or absent flag default to false)
the endpoint answers 204 and neither sends GetPermit nor proxies; otherwise it
sends GetPermit for the worker port and proxies the request. -/
def tile_endpoint (maxzoom : Nat) (parseOk : Bool) (z : Nat) (ct : String)
    (diskFile : Option (List Nat)) (db : DbStage) (ds : Option DataSourceInfo)
    (proxyResp : Option TileResp) : TileOutcome :=
  if parseOk = false then
    { resp := { status := 400, contentType := "", gzipHeader := false, body := [] },
      sentGetPermit := false, proxied := false }
  else if z > maxzoom then
    { resp := { status := 400, contentType := "", gzipHeader := false, body := [] },
      sentGetPermit := false, proxied := false }
  else
    match get_tile_from_disk diskFile ct with
    | some r => { resp := r, sentGetPermit := false, proxied := false }
    | none =>
      match db with
      | DbStage.hit r => { resp := r, sentGetPermit := false, proxied := false }
      | DbStage.noPath (some r) => { resp := r, sentGetPermit := false, proxied := false }
      | _ =>
        let use_cache_only : Bool :=
          match ds with
          | some d => d.use_cache_only.getD false
          | none => false
        if use_cache_only then
          { resp := { status := 204, contentType := "", gzipHeader := false, body := [] },
            sentGetPermit := false, proxied := false }
        else
          match proxyResp with
          | some r => { resp := r, sentGetPermit := true, proxied := true }
          | none =>
            { resp := { status := 500, contentType := "", gzipHeader := false, body := [] },
              sentGetPermit := true, proxied := true }

/-- C6: for a tile request on a datasource with use_cache_only = some true,
when the on-disk file misses and the cache-DB stage produces no response, the
endpoint answers 204 with an empty body and never sends a GetPermit message
nor proxies the request to a worker. -/
theorem tile_endpoint_cache_only (maxzoom z : Nat) (ct : String)
    (diskFile : Option (List Nat)) (db : DbStage) (d : DataSourceInfo)
    (proxyResp : Option TileResp)
    (hz : ¬ z > maxzoom)
    (hdisk : get_tile_from_disk diskFile ct = none)
    (hdb : db = DbStage.miss ∨ db = DbStage.noPath none)
    (hds : d.use_cache_only = some true) :
    tile_endpoint maxzoom true z ct diskFile db (some d) proxyResp
      = { resp := { status := 204, contentType := "", gzipHeader := false, body := [] },
          sentGetPermit := false, proxied := false } := by
  rcases hdb with hdb | hdb <;> subst hdb <;>
    simp [tile_endpoint, hz, hdisk, hds]

/-- Witness for C6 at a concrete cache-only datasource with both caches
missing. -/
theorem tile_endpoint_cache_only_witness :
    (¬ 5 > 22
      ∧ get_tile_from_disk none "image/png" = none
      ∧ (DbStage.miss = DbStage.miss ∨ DbStage.miss = DbStage.noPath none)
      ∧ (DataSourceInfo.mk none none (some true) none).use_cache_only = some true)
    ∧ tile_endpoint 22 true 5 "image/png" none DbStage.miss
        (some (DataSourceInfo.mk none none (some true) none)) none
      = { resp := { status := 204, contentType := "", gzipHeader := false, body := [] },
          sentGetPermit := false, proxied := false } :=
  ⟨⟨by decide, rfl, Or.inl rfl, rfl⟩,
    tile_endpoint_cache_only 22 5 "image/png" none DbStage.miss
      (DataSourceInfo.mk none none (some true) none) none
      (by decide) rfl (Or.inl rfl) rfl⟩

/-!
Datasource write fan-out.
Source: handles/endpoints/datasource.rs, datasource_endpoint, reached from
handles/mod.rs for POST/PUT/PATCH/GET on /api/datasources, load_files and
reload_files, with port the current round-robin worker and ports the full
pool list.
-/

/-- Externally visible actions of datasource_endpoint. -/
inductive DSEffect
  | proxyOriginal (port : Nat)
  | relayGetDatasources (port : Nat)
  | sendUpdate (isHeaderMaster : Bool)
deriving DecidableEq

/-- handles/endpoints/datasource.rs datasource_endpoint: reverse-proxy the
original request to the round-robin worker port, then spawn one
GET /api/datasources relay per port of the pool list (joined before
returning), then send UpdateDataSources with the Master-Server header
presence, and finally answer the proxied response (500 on proxy error). -/
def datasource_endpoint (port : Nat) (ports : List Nat) (hasMasterHeader : Bool)
    (proxyStatus : Option Nat) : List DSEffect × Nat :=
  ([DSEffect.proxyOriginal port]
    ++ ports.map (fun p => DSEffect.relayGetDatasources p)
    ++ [DSEffect.sendUpdate hasMasterHeader],
   match proxyStatus with
   | some st => st
   | none => 500)

/-- The ports targeted by cache-refresh relays among a list of effects. -/
def relayTargets (es : List DSEffect) : List Nat :=
  es.filterMap (fun e =>
    match e with
    | DSEffect.relayGetDatasources p => some p
    | _ => none)

/-- C8 counterexample: with pool [8001, 8002] and round-robin worker 8001, the
claim says the refresh GET /api/datasources is relayed only to 8002, but the
endpoint relays it to every port of the pool, including the authoritative
worker 8001 itself. -/
theorem datasource_relay_counterexample :
    relayTargets (datasource_endpoint 8001 [8001, 8002] false (some 200)).1
      ≠ [8002]
    ∧ 8001 ∈ relayTargets (datasource_endpoint 8001 [8001, 8002] false (some 200)).1 := by
  constructor
  · decide
  · decide

/-- C8 amended: the original request is forwarded to the current round-robin
worker, and the cache-refresh GET /api/datasources is relayed in parallel to
every worker port of the pool, including the authoritative worker itself (not
only to the other workers); the UpdateDataSources broadcast carries the
Master-Server header presence, and the response is the proxied worker response
(500 on proxy failure). -/
theorem datasource_endpoint_amended (port : Nat) (ports : List Nat)
    (hasMasterHeader : Bool) (proxyStatus : Option Nat) :
    DSEffect.proxyOriginal port ∈ (datasource_endpoint port ports hasMasterHeader proxyStatus).1
    ∧ relayTargets (datasource_endpoint port ports hasMasterHeader proxyStatus).1 = ports
    ∧ DSEffect.sendUpdate hasMasterHeader
        ∈ (datasource_endpoint port ports hasMasterHeader proxyStatus).1
    ∧ (datasource_endpoint port ports hasMasterHeader proxyStatus).2
        = (match proxyStatus with | some st => st | none => 500) := by
  refine ⟨?_, ?_, ?_, rfl⟩
  · simp [datasource_endpoint]
  · simp only [datasource_endpoint, relayTargets, List.filterMap_append,
      List.filterMap_cons, List.filterMap_nil]
    rw [List.filterMap_map]
    simp [Function.comp_def, List.filterMap_some]
  · simp [datasource_endpoint]

/-!
Cache-DB handle registry.
Source: tasks/sqlite_clients.rs, sqlite_clients_maintenance (RemoveSQLiteClient
arm) and handles/endpoints/pyramid.rs, remove_mbtiles_files.
-/

/-- Join path components with a slash, mirroring PathBuf built from an
iterator of components. -/
def pathJoin (parts : List String) : String :=
  String.intercalate "/" parts

/-- The parent directory of a path (the path without its final component). -/
def parentDir (p : String) : String :=
  pathJoin (p.splitOn "/").dropLast

/-- Observable outcome of one RemoveSQLiteClient message. -/
structure RemoveOutcome where
  registry : List String
  closedHandle : Bool
  deleted : List String
  delayBeforeDeleteMs : Nat
deriving DecidableEq

/-- tasks/sqlite_clients.rs, the RemoveSQLiteClient arm: when the path is in
the registry, the handle is closed and removed, then a spawned (and joined)
task deletes, with no preceding delay, either the parent directory (when
remove_tiles_folder is Some(true)) or, when remove_tiles_db is Some(true),
only the mbtiles_db file itself; nothing is deleted otherwise or when the path
is not registered. -/
def removeSQLiteClient (registry : List String) (mbtiles_db : String)
    (remove_tiles_folder remove_tiles_db : Option Bool) : RemoveOutcome :=
  if mbtiles_db ∈ registry then
    let reg2 : List String := registry.filter (fun s => ¬ s = mbtiles_db)
    match remove_tiles_folder with
    | some true =>
      { registry := reg2, closedHandle := true,
        deleted := [parentDir mbtiles_db], delayBeforeDeleteMs := 0 }
    | _ =>
      match remove_tiles_db with
      | some true =>
        { registry := reg2, closedHandle := true,
          deleted := [mbtiles_db], delayBeforeDeleteMs := 0 }
      | _ =>
        { registry := reg2, closedHandle := true,
          deleted := [], delayBeforeDeleteMs := 0 }
  else
    { registry := registry, closedHandle := false,
      deleted := [], delayBeforeDeleteMs := 0 }

/-- handles/endpoints/pyramid.rs remove_mbtiles_files: sleep 100 ms, then
delete the mbtiles file and its -wal and -shm siblings, but only when all
three exist.  fileExists gives the metadata answer per path. -/
def remove_mbtiles_files (fileExists : String → Bool) (cwd datasource_id : String)
    (mbtiles_db : String) : List String × Nat :=
  let wal_file : String :=
    pathJoin [cwd, "tiles", datasource_id, datasource_id ++ ".mbtiles-wal"]
  let shm_file : String :=
    pathJoin [cwd, "tiles", datasource_id, datasource_id ++ ".mbtiles-shm"]
  if fileExists mbtiles_db ∧ fileExists wal_file ∧ fileExists shm_file then
    ([mbtiles_db, wal_file, shm_file], 100)
  else
    ([], 100)

/-- C9 counterexample: a registered handle removed with remove_tiles_db = true
deletes only the .mbtiles file itself, with no 100 ms delay, and in particular
does not delete the -wal sibling. -/
theorem removeSQLiteClient_counterexample :
    (removeSQLiteClient ["/w/tiles/ds1/ds1.mbtiles"] "/w/tiles/ds1/ds1.mbtiles"
        none (some true)).deleted = ["/w/tiles/ds1/ds1.mbtiles"]
    ∧ ¬ "/w/tiles/ds1/ds1.mbtiles-wal"
        ∈ (removeSQLiteClient ["/w/tiles/ds1/ds1.mbtiles"] "/w/tiles/ds1/ds1.mbtiles"
            none (some true)).deleted
    ∧ (removeSQLiteClient ["/w/tiles/ds1/ds1.mbtiles"] "/w/tiles/ds1/ds1.mbtiles"
        none (some true)).delayBeforeDeleteMs = 0 := by
  refine ⟨by decide, by decide, by decide⟩

/-- C9 amended: on RemoveSQLiteClient with remove_tiles_db = true, after the
handle is closed and removed from the registry, only the main .mbtiles file is
best-effort-deleted, immediately (no delay); the 100 ms delay and the deletion
of all three companion files live in remove_mbtiles_files of the pyramid
endpoint, which deletes the triplet only when all three files exist and
deletes nothing otherwise. -/
theorem removeSQLiteClient_amended (registry : List String) (db : String)
    (hmem : db ∈ registry) :
    ((removeSQLiteClient registry db none (some true)).closedHandle = true
      ∧ ¬ db ∈ (removeSQLiteClient registry db none (some true)).registry
      ∧ (removeSQLiteClient registry db none (some true)).deleted = [db]
      ∧ (removeSQLiteClient registry db none (some true)).delayBeforeDeleteMs = 0)
    ∧ (∀ (fe : String → Bool) (cwd ds mdb : String),
        (remove_mbtiles_files fe cwd ds mdb).2 = 100
        ∧ ((remove_mbtiles_files fe cwd ds mdb).1 = []
            ∨ (remove_mbtiles_files fe cwd ds mdb).1
              = [mdb, pathJoin [cwd, "tiles", ds, ds ++ ".mbtiles-wal"],
                 pathJoin [cwd, "tiles", ds, ds ++ ".mbtiles-shm"]])) := by
  constructor
  · refine ⟨?_, ?_, ?_, ?_⟩ <;>
      simp [removeSQLiteClient, hmem, List.mem_filter]
  · intro fe cwd ds mdb
    constructor
    · simp only [remove_mbtiles_files]
      split <;> rfl
    · simp only [remove_mbtiles_files]
      split
      · right; rfl
      · left; rfl

/-- Witness for C9 amended at a concrete registered path. -/
theorem removeSQLiteClient_amended_witness :
    ("/w/tiles/ds1/ds1.mbtiles" ∈ ["/w/tiles/ds1/ds1.mbtiles"])
    ∧ (removeSQLiteClient ["/w/tiles/ds1/ds1.mbtiles"] "/w/tiles/ds1/ds1.mbtiles"
        none (some true)).closedHandle = true
    ∧ ¬ "/w/tiles/ds1/ds1.mbtiles"
        ∈ (removeSQLiteClient ["/w/tiles/ds1/ds1.mbtiles"] "/w/tiles/ds1/ds1.mbtiles"
            none (some true)).registry :=
  ⟨by decide,
    (removeSQLiteClient_amended ["/w/tiles/ds1/ds1.mbtiles"] "/w/tiles/ds1/ds1.mbtiles"
      (by decide)).1.1,
    (removeSQLiteClient_amended ["/w/tiles/ds1/ds1.mbtiles"] "/w/tiles/ds1/ds1.mbtiles"
      (by decide)).1.2.1⟩

end Tiler
